import Mathlib

/-!
Verification of `brew_tap_audit.py`: a script that lists Homebrew taps,
groups the installed formulae and casks by the tap that provides them,
derives each tap's GitHub URL and probes its reachability, printing one
status block per tap.

The embedding is shallow: Python strings are lists of characters
(`PyStr`), the `defaultdict(list)` accumulator is an insertion-ordered
association list (`TapMap`), and the two external effects — the bulk
`brew info --json=v2` subprocess and the HTTP HEAD probe — are passed in
explicitly as oracle values (`Option InfoData`, `NetResult`), so every
function of the script becomes a pure, executable Lean function.
-/

namespace BrewTapAudit

/-- A Python string, modelled as its list of characters. -/
abbrev PyStr := List Char

/-- The characters of a Lean string literal; used to transcribe the Python
string literals of the script. -/
def str (s : String) : PyStr := s.data

/-- Python's `s.split(sep)` for a one-character separator `c`: splits on
every occurrence of `c`, keeping empty segments, so the result always has
one more element than the number of separators. -/
def pySplitOn (c : Char) : List Char → List (List Char)
  | [] => [[]]
  | a :: rest =>
    if a = c then [] :: pySplitOn c rest
    else
      match pySplitOn c rest with
      | [] => [[a]]
      | h :: t => (a :: h) :: t

/-- The `tap_map` accumulator of `group_items_by_tap`: an insertion-ordered
association list from tap name to the item names appended under that tap,
mirroring a `defaultdict(list)`. -/
abbrev TapMap := List (PyStr × List PyStr)

/-- `tap_map[tap].append(item)` on a `defaultdict(list)`: appends to the
existing entry for `tap`, or adds a new entry `(tap, [item])` at the end. -/
def tapInsert : TapMap → PyStr → PyStr → TapMap
  | [], tap, item => [(tap, [item])]
  | (t, xs) :: rest, tap, item =>
    if t = tap then (t, xs ++ [item]) :: rest
    else (t, xs) :: tapInsert rest tap item

/-- `d.get(tap, [])` on the association list. -/
def tapGet : TapMap → PyStr → List PyStr
  | [], _ => []
  | (t, xs) :: rest, tap => if t = tap then xs else tapGet rest tap

/-- One metadata record of the bulk `brew info --json=v2` response, as the
script reads it: the truthiness of its `installed` field
(`info.get('installed', [])`) and its optional top-level `tap` field. -/
structure InfoRecord where
  installed : Bool
  tap : Option PyStr

/-- The parsed JSON document of the bulk query: its `formulae` and `casks`
arrays, each defaulted to `[]` by `info_data.get`. -/
structure InfoData where
  formulae : List InfoRecord
  casks : List InfoRecord

/-- The loop `for idx, info in enumerate(all_info)` of `group_items_by_tap`:
a record whose `installed` field is truthy and whose index is in range
attributes `items[idx]` to the record's tap, defaulting to
`homebrew/core` when the record has no `tap` field. -/
def groupLoop (items : List PyStr) : Nat → List InfoRecord → TapMap → TapMap
  | _, [], m => m
  | idx, info :: rest, m =>
    groupLoop items (idx + 1) rest
      (if info.installed ∧ idx < items.length then
        tapInsert m (info.tap.getD (str "homebrew/core")) (items.getD idx [])
      else m)

/-- `group_items_by_tap(items)` with the outcome of the bulk metadata query
passed in: `none` when `brew info` exits non-zero or its output fails to
parse as JSON (the `except` branch puts every item under `homebrew/core`),
`some` the parsed document otherwise. -/
def group_items_by_tap (items : List PyStr) (query : Option InfoData) : TapMap :=
  if items.isEmpty then []
  else
    match query with
    | some info_data => groupLoop items 0 (info_data.formulae ++ info_data.casks) []
    | none => items.foldl (fun m item => tapInsert m (str "homebrew/core") item) []

/-- The per-tap record of the merged mapping: the tap's formula list and
cask list. -/
structure TapRecord where
  formulae : List PyStr
  casks : List PyStr
deriving DecidableEq

/-- `merge_formulae_and_casks(formula_map, cask_map)`: one entry per tap of
the union of the two key sets, pairing the tap's formula list and cask list
(each defaulting to `[]` where the tap is absent). -/
def merge_formulae_and_casks (formula_map cask_map : TapMap) :
    List (PyStr × TapRecord) :=
  let all_taps := (formula_map.map Prod.fst ++ cask_map.map Prod.fst).dedup
  all_taps.map (fun tap => (tap, ⟨tapGet formula_map tap, tapGet cask_map tap⟩))

/-- `installed_map.get(tap, {})` on the merged mapping, the empty record
standing for the empty dict. -/
def mergedGet : List (PyStr × TapRecord) → PyStr → TapRecord
  | [], _ => ⟨[], []⟩
  | (t, r) :: rest, tap => if t = tap then r else mergedGet rest tap

/-- The outcome of the HTTP HEAD request issued by `urllib.request.urlopen`:
either the request completes with a status code, or it raises an exception
whose string rendering is the given message. -/
inductive NetResult where
  | completed (status : Nat)
  | failed (message : PyStr)
deriving DecidableEq

/-- A Python value that is either a `bool` or a `str`: the two possible
return types of `check_url_reachable`. -/
inductive PyVal where
  | pyBool (b : Bool)
  | pyStr (s : PyStr)
deriving DecidableEq

/-- Python's `str(e).splitlines()[0]` on a nonempty string: the characters
up to the first line terminator. -/
def first_line (s : PyStr) : PyStr :=
  s.takeWhile (fun c => !(c == Char.ofNat 10 || c == Char.ofNat 13))

/-- `check_url_reachable(url)` with the request's outcome passed in: a
completed request yields `response.status == 200` as a bool; a raised
exception yields the string `Error:` plus the first line of the message
(`Unknown error` when the message is empty). -/
def check_url_reachable (url : PyStr) (net : NetResult) : PyVal :=
  match net with
  | .completed status => .pyBool (status == 200)
  | .failed e =>
    let error_msg := if e.isEmpty then str "Unknown error" else first_line e
    .pyStr (str "Error: " ++ error_msg)

/-- `infer_tap_url(tap_name)`: `user, repo = tap_name.split("/")` succeeds
exactly when the split yields two segments; `none` models the `ValueError`
the unpacking raises otherwise. -/
def infer_tap_url (tap_name : PyStr) : Option PyStr :=
  match pySplitOn '/' tap_name with
  | [user, repo] =>
    some (str "https://github.com/" ++ user ++ str "/homebrew-" ++ repo)
  | _ => none

/-- Python's `str(x)` for the two shapes `check_url_reachable` returns, as
interpolated into the `[ERROR]` line. -/
def pyValStr : PyVal → PyStr
  | .pyBool true => str "True"
  | .pyBool false => str "False"
  | .pyStr s => s

/-- The item lines `check_tap` prints after the status line: a formula line
when the tap has formulae, a cask line when it has casks, and the
no-items note when it has neither. -/
def item_lines (tap : PyStr) (installed : TapRecord) : List PyStr :=
  (if installed.formulae.isEmpty then [] else
    [str " ↳ Formulae: " ++ List.intercalate (str ", ") installed.formulae]) ++
  (if installed.casks.isEmpty then [] else
    [str " ↳ Casks: " ++ List.intercalate (str ", ") installed.casks]) ++
  (if installed.formulae.isEmpty ∧ installed.casks.isEmpty then
    [str " ↳ No formulae or casks installed from " ++ tap] else [])

/-- `check_tap(tap, installed)` with the network oracle passed in: derives
the URL (propagating `infer_tap_url`'s failure, which the script does not
catch), probes it, and returns the lines printed for this tap. -/
def check_tap (tap : PyStr) (installed : TapRecord)
    (net : PyStr → NetResult) : Option (List PyStr) :=
  match infer_tap_url tap with
  | none => none
  | some url =>
    let result := check_url_reachable url (net url)
    let status_line :=
      if result = PyVal.pyBool true then
        str "[OK] " ++ tap ++ str " (" ++ url ++ str ") is reachable"
      else
        str "[ERROR] Cannot reach " ++ tap ++ str " (" ++ url ++ str "): " ++
          pyValStr result
    some (status_line :: item_lines tap installed)

/-- The loop `for tap in taps: check_tap(tap, installed_map.get(tap, {}))`
of `main`: the concatenation of every tap's printed lines, `none` when any
`check_tap` raises. -/
def run_checks (taps : List PyStr) (installed_map : List (PyStr × TapRecord))
    (net : PyStr → NetResult) : Option (List PyStr) :=
  match taps with
  | [] => some []
  | tap :: rest =>
    match check_tap tap (mergedGet installed_map tap) net,
          run_checks rest installed_map net with
    | some ls, some more => some (ls ++ more)
    | _, _ => none

/-- Python's `<=` on strings: lexicographic comparison by character code. -/
def strLe : PyStr → PyStr → Bool
  | [], _ => true
  | _ :: _, [] => false
  | a :: as, b :: bs =>
    if a.toNat < b.toNat then true
    else if b.toNat < a.toNat then false
    else strLe as bs

/-- The tap list `main` iterates over: the two default taps followed by the
enumerated custom taps, deduplicated (`list(set(taps))`) and sorted
(`taps.sort()`). -/
def compute_taps (custom_taps : List PyStr) : List PyStr :=
  List.insertionSort (fun a b => strLe a b = true)
    ((str "homebrew/core" :: str "homebrew/cask" :: custom_taps).dedup)

/-- The total number of occurrences of the item name `x` across every
tap's list of the grouping. -/
def totalCount (m : TapMap) (x : PyStr) : Nat :=
  (m.map (fun p => p.2.count x)).sum

/-- The sequence of item names `groupLoop` appends, in loop order. -/
def addedSeq (items : List PyStr) : Nat → List InfoRecord → List PyStr
  | _, [] => []
  | idx, info :: rest =>
    (if info.installed ∧ idx < items.length then [items.getD idx []] else []) ++
      addedSeq items (idx + 1) rest

/-- The network oracle of the three-tap scenario: the HEAD request succeeds
for the two default taps' URLs and raises for every other URL. -/
def demo_net : PyStr → NetResult := fun url =>
  if url = str "https://github.com/homebrew/homebrew-core" ∨
      url = str "https://github.com/homebrew/homebrew-cask" then
    NetResult.completed 200
  else NetResult.failed (str "HTTP Error 404: Not Found")

lemma pySplitOn_ne_nil (c : Char) (l : List Char) : pySplitOn c l ≠ [] := by
  cases l with
  | nil => simp [pySplitOn]
  | cons a rest =>
    by_cases h : a = c
    · simp [pySplitOn, h]
    · cases hr : pySplitOn c rest with
      | nil => simp [pySplitOn, h, hr]
      | cons x t => simp [pySplitOn, h, hr]

lemma pySplitOn_no_sep (c : Char) (l : List Char) (h : ∀ a ∈ l, a ≠ c) :
    pySplitOn c l = [l] := by
  induction l with
  | nil => rfl
  | cons a rest ih =>
    have ha : a ≠ c := h a (List.mem_cons_self a rest)
    have hrest := ih (fun x hx => h x (List.mem_cons_of_mem a hx))
    simp [pySplitOn, ha, hrest]

lemma pySplitOn_append (c : Char) (l1 l2 : List Char) (h : ∀ a ∈ l1, a ≠ c) :
    pySplitOn c (l1 ++ c :: l2) = l1 :: pySplitOn c l2 := by
  induction l1 with
  | nil => simp [pySplitOn]
  | cons a rest ih =>
    have ha : a ≠ c := h a (List.mem_cons_self a rest)
    have hrest := ih (fun x hx => h x (List.mem_cons_of_mem a hx))
    simp [pySplitOn, ha, hrest]

lemma length_pySplitOn (c : Char) (l : List Char) :
    (pySplitOn c l).length = l.count c + 1 := by
  induction l with
  | nil => simp [pySplitOn]
  | cons a rest ih =>
    by_cases h : a = c
    · subst h
      simp [pySplitOn, List.count_cons, ih]
    · cases hr : pySplitOn c rest with
      | nil => exact absurd hr (pySplitOn_ne_nil c rest)
      | cons x t =>
        have hlen : (x :: t).length = rest.count c + 1 := hr ▸ ih
        simp only [List.length_cons] at hlen
        simp [pySplitOn, h, hr, List.count_cons, hlen]

lemma totalCount_tapInsert (m : TapMap) (tap item x : PyStr) :
    totalCount (tapInsert m tap item) x =
      totalCount m x + (if item = x then 1 else 0) := by
  induction m with
  | nil =>
    simp [tapInsert, totalCount, List.count_singleton, beq_iff_eq]
  | cons p rest ih =>
    obtain ⟨t, xs⟩ := p
    by_cases h : t = tap
    · by_cases hix : item = x <;>
        simp [tapInsert, h, totalCount, List.count_append,
          List.count_singleton, beq_iff_eq, hix] <;> omega
    · simp only [tapInsert, if_neg h, totalCount, List.map_cons, List.sum_cons]
      have := ih
      simp only [totalCount] at this
      rw [this]
      omega

lemma totalCount_groupLoop (items : List PyStr) (recs : List InfoRecord)
    (idx : Nat) (m : TapMap) (x : PyStr) :
    totalCount (groupLoop items idx recs m) x =
      totalCount m x + (addedSeq items idx recs).count x := by
  induction recs generalizing idx m with
  | nil => simp [groupLoop, addedSeq, totalCount]
  | cons info rest ih =>
    by_cases h : info.installed ∧ idx < items.length
    · by_cases hix : items.getD idx [] = x <;>
        simp [groupLoop, addedSeq, h, ih, totalCount_tapInsert,
          List.count_cons, beq_iff_eq, hix] <;> omega
    · simp [groupLoop, addedSeq, h, ih]

lemma addedSeq_sublist (items : List PyStr) (recs : List InfoRecord) (idx : Nat) :
    (addedSeq items idx recs).Sublist (items.drop idx) := by
  induction recs generalizing idx with
  | nil => simp [addedSeq]
  | cons info rest ih =>
    by_cases h : info.installed ∧ idx < items.length
    · have hlt : idx < items.length := h.2
      have hdrop : items.drop idx = items[idx] :: items.drop (idx + 1) :=
        List.drop_eq_getElem_cons hlt
      have hgetD : items.getD idx [] = items[idx] := List.getD_eq_getElem items [] hlt
      simp only [addedSeq, if_pos h, List.singleton_append]
      rw [hdrop, hgetD]
      exact List.Sublist.cons₂ _ (ih (idx + 1))
    · simp only [addedSeq, if_neg h, List.nil_append]
      have hsub : (items.drop (idx + 1)).Sublist (items.drop idx) := by
        have hdd := List.drop_drop 1 idx items
        rw [← hdd]
        exact List.drop_sublist 1 (items.drop idx)
      exact (ih (idx + 1)).trans hsub

lemma foldl_tapInsert_eq (k : PyStr) (l : List PyStr) (acc : List PyStr) :
    List.foldl (fun m item => tapInsert m k item) [(k, acc)] l = [(k, acc ++ l)] := by
  induction l generalizing acc with
  | nil => simp
  | cons a rest ih =>
    simp only [List.foldl_cons]
    have hstep : tapInsert [(k, acc)] k a = [(k, acc ++ [a])] := by simp [tapInsert]
    rw [hstep, ih]
    simp

lemma group_none_eq (items : List PyStr) (h : items ≠ []) :
    group_items_by_tap items none = [(str "homebrew/core", items)] := by
  cases items with
  | nil => exact absurd rfl h
  | cons a rest =>
    simp only [group_items_by_tap, List.isEmpty_cons, Bool.false_eq_true,
      if_false, List.foldl_cons]
    have hstep : tapInsert [] (str "homebrew/core") a = [(str "homebrew/core", [a])] := rfl
    rw [hstep, foldl_tapInsert_eq]
    simp

lemma totalCount_group_le_count (items : List PyStr) (query : Option InfoData)
    (x : PyStr) :
    totalCount (group_items_by_tap items query) x ≤ items.count x := by
  cases items with
  | nil => simp [group_items_by_tap, totalCount]
  | cons a rest =>
    cases query with
    | none =>
      rw [group_none_eq _ (by simp)]
      simp [totalCount]
    | some d =>
      simp only [group_items_by_tap, List.isEmpty_cons, Bool.false_eq_true, if_false]
      rw [totalCount_groupLoop]
      have hsub := addedSeq_sublist (a :: rest) (d.formulae ++ d.casks) 0
      rw [List.drop_zero] at hsub
      simpa [totalCount] using hsub.count_le x

lemma strLe_cons_iff (x y : Char) (xs ys : PyStr) :
    strLe (x :: xs) (y :: ys) = true ↔
      (x.toNat < y.toNat ∨ (x.toNat = y.toNat ∧ strLe xs ys = true)) := by
  by_cases h1 : x.toNat < y.toNat
  · simp [strLe, h1]
  · by_cases h2 : y.toNat < x.toNat
    · simp only [strLe, if_neg h1, if_pos h2, Bool.false_eq_true, false_iff]
      rintro (h | ⟨h, -⟩) <;> omega
    · have h3 : ¬x.toNat = y.toNat → False := by omega
      simp [strLe, h1, h2]
      omega

lemma strLe_total (a b : PyStr) : strLe a b = true ∨ strLe b a = true := by
  induction a generalizing b with
  | nil => left; rfl
  | cons x xs ih =>
    cases b with
    | nil => right; rfl
    | cons y ys =>
      rcases Nat.lt_trichotomy x.toNat y.toNat with h | h | h
      · left; simp [strLe_cons_iff, h]
      · rcases ih ys with h2 | h2
        · left; rw [strLe_cons_iff]; exact Or.inr ⟨h, h2⟩
        · right; rw [strLe_cons_iff]; exact Or.inr ⟨h.symm, h2⟩
      · right; simp [strLe_cons_iff, h]

lemma strLe_trans_le (a b c : PyStr) (hab : strLe a b = true)
    (hbc : strLe b c = true) : strLe a c = true := by
  induction a generalizing b c with
  | nil => rfl
  | cons x xs ih =>
    cases b with
    | nil => simp [strLe] at hab
    | cons y ys =>
      cases c with
      | nil => simp [strLe] at hbc
      | cons z zs =>
        rw [strLe_cons_iff] at hab hbc ⊢
        rcases hab with h1 | ⟨h1, h1t⟩ <;> rcases hbc with h2 | ⟨h2, h2t⟩
        · left; omega
        · left; omega
        · left; omega
        · right; exact ⟨by omega, ih ys zs h1t h2t⟩

instance : IsTotal PyStr (fun a b => strLe a b = true) := ⟨strLe_total⟩

instance : IsTrans PyStr (fun a b => strLe a b = true) := ⟨strLe_trans_le⟩

lemma isPrefixOf_false_of_head_ne {a b : Char} (h : a ≠ b) (as bs : List Char) :
    List.isPrefixOf (a :: as) (b :: bs) = false := by
  rw [← Bool.not_eq_true, List.isPrefixOf_iff_prefix]
  intro hc
  exact h (List.cons_prefix_cons.1 hc).1

lemma item_lines_indent (tap : PyStr) (r : TapRecord) :
    ∀ l ∈ item_lines tap r, (str " ↳ ").isPrefixOf l = true := by
  intro l hl
  rw [List.isPrefixOf_iff_prefix]
  simp only [item_lines, List.mem_append] at hl
  rcases hl with (hl | hl) | hl
  · by_cases hf : r.formulae.isEmpty = true
    · rw [if_pos hf] at hl
      simp at hl
    · rw [if_neg hf] at hl
      simp only [List.mem_singleton] at hl
      rw [hl]
      exact List.IsPrefix.trans ⟨str "Formulae: ", rfl⟩ (List.prefix_append _ _)
  · by_cases hc : r.casks.isEmpty = true
    · rw [if_pos hc] at hl
      simp at hl
    · rw [if_neg hc] at hl
      simp only [List.mem_singleton] at hl
      rw [hl]
      exact List.IsPrefix.trans ⟨str "Casks: ", rfl⟩ (List.prefix_append _ _)
  · by_cases hb : r.formulae.isEmpty = true ∧ r.casks.isEmpty = true
    · rw [if_pos hb] at hl
      simp only [List.mem_singleton] at hl
      rw [hl]
      exact List.IsPrefix.trans
        ⟨str "No formulae or casks installed from ", rfl⟩ (List.prefix_append _ _)
    · rw [if_neg hb] at hl
      simp at hl

lemma item_lines_ne_nil (tap : PyStr) (r : TapRecord) : item_lines tap r ≠ [] := by
  simp only [item_lines]
  by_cases hf : r.formulae.isEmpty = true <;>
    by_cases hc : r.casks.isEmpty = true <;> simp [hf, hc]

lemma status_absent_of_indent (l : PyStr)
    (h : (str " ↳ ").isPrefixOf l = true) :
    (str "[ERROR]").isPrefixOf l = false ∧ (str "[OK]").isPrefixOf l = false := by
  rw [List.isPrefixOf_iff_prefix] at h
  obtain ⟨t, ht⟩ := h
  have hl : l = ' ' :: (str "↳ " ++ t) := by rw [← ht]; rfl
  rw [hl]
  exact ⟨isPrefixOf_false_of_head_ne (by decide) _ _,
    isPrefixOf_false_of_head_ne (by decide) _ _⟩

lemma countP_item_lines_err (tap : PyStr) (r : TapRecord) :
    (item_lines tap r).countP (fun l => (str "[ERROR]").isPrefixOf l) = 0 :=
  List.countP_eq_zero.2 (fun l hl => by
    simp [(status_absent_of_indent l (item_lines_indent tap r l hl)).1])

lemma countP_item_lines_ok (tap : PyStr) (r : TapRecord) :
    (item_lines tap r).countP (fun l => (str "[OK]").isPrefixOf l) = 0 :=
  List.countP_eq_zero.2 (fun l hl => by
    simp [(status_absent_of_indent l (item_lines_indent tap r l hl)).2])

lemma run_checks_cons (tap : PyStr) (rest : List PyStr)
    (m : List (PyStr × TapRecord)) (net : PyStr → NetResult)
    (ls more : List PyStr)
    (h1 : check_tap tap (mergedGet m tap) net = some ls)
    (h2 : run_checks rest m net = some more) :
    run_checks (tap :: rest) m net = some (ls ++ more) := by
  simp [run_checks, h1, h2]

lemma count_le_one_of_nodup (l : List PyStr) (h : l.Nodup) (x : PyStr) :
    l.count x ≤ 1 := by
  induction l with
  | nil => simp
  | cons a t ih =>
    rw [List.count_cons]
    rcases List.nodup_cons.1 h with ⟨ha, ht⟩
    by_cases hax : a = x
    · subst hax
      have h0 : t.count a = 0 := List.count_eq_zero.2 ha
      simp [h0]
    · simp [hax, ih ht]

/-- C1 (amended): in the grouping produced by `group_items_by_tap`, every
item of a duplicate-free input list is attributed to at most one tap: no
item name appears more than once in total across the taps' lists. (Items
whose metadata record does not confirm installation, or which have no
corresponding record, may be attributed to no tap.) -/
theorem group_attributes_at_most_once (items : List PyStr)
    (query : Option InfoData) (h : items.Nodup) (x : PyStr) :
    totalCount (group_items_by_tap items query) x ≤ 1 :=
  le_trans (totalCount_group_le_count items query x)
    (count_le_one_of_nodup items h x)

/-- Witness for C1's amended theorem at the one-item input `wget` with a
failed query. -/
theorem group_attributes_at_most_once_witness :
    totalCount (group_items_by_tap [str "wget"] none) (str "wget") ≤ 1 :=
  group_attributes_at_most_once [str "wget"] none (by decide) (str "wget")

/-- Counterexample to C1 as stated: with input `foo` and a successful query
whose record for `foo` does not confirm installation, the grouping is empty,
so `foo` is attributed to zero taps, not exactly one. -/
theorem group_uninstalled_item_in_zero_taps :
    group_items_by_tap [str "foo"]
      (some ⟨[⟨false, some (str "a/b")⟩], []⟩) = [] ∧
    totalCount (group_items_by_tap [str "foo"]
      (some ⟨[⟨false, some (str "a/b")⟩], []⟩)) (str "foo") = 0 :=
  ⟨rfl, rfl⟩

/-- C2: for every tap name made of two nonempty slash-free segments joined
by a single `/`, `infer_tap_url` returns
`https://github.com/` owner `/homebrew-` repo. -/
theorem infer_tap_url_two_segments (owner repo : PyStr)
    (howner : owner ≠ []) (hrepo : repo ≠ [])
    (hso : '/' ∉ owner) (hsr : '/' ∉ repo) :
    infer_tap_url (owner ++ '/' :: repo) =
      some (str "https://github.com/" ++ owner ++ str "/homebrew-" ++ repo) := by
  have ho : ∀ a ∈ owner, a ≠ '/' := fun a ha heq => hso (heq ▸ ha)
  have hr : ∀ a ∈ repo, a ≠ '/' := fun a ha heq => hsr (heq ▸ ha)
  simp [infer_tap_url, pySplitOn_append '/' owner repo ho,
    pySplitOn_no_sep '/' repo hr]

/-- Witness for C2 at owner `alice` and repo `tools`. -/
theorem infer_tap_url_two_segments_witness :
    infer_tap_url (str "alice" ++ '/' :: str "tools") =
      some (str "https://github.com/" ++ str "alice" ++
        str "/homebrew-" ++ str "tools") :=
  infer_tap_url_two_segments (str "alice") (str "tools")
    (by decide) (by decide) (by decide) (by decide)

/-- C3: for every tap name that does not contain exactly one `/`,
`infer_tap_url` raises (returns no URL); `check_tap` does not catch the
error, and neither does the main loop, so the whole run fails. -/
theorem infer_tap_url_bad_name_fatal (tap : PyStr) (h : tap.count '/' ≠ 1) :
    infer_tap_url tap = none ∧
    (∀ installed net, check_tap tap installed net = none) ∧
    (∀ m net pre post, run_checks (pre ++ tap :: post) m net = none) := by
  have hlen : (pySplitOn '/' tap).length ≠ 2 := by
    rw [length_pySplitOn]
    omega
  have hurl : infer_tap_url tap = none := by
    cases hs : pySplitOn '/' tap with
    | nil => simp [infer_tap_url, hs]
    | cons x t =>
      cases t with
      | nil => simp [infer_tap_url, hs]
      | cons y t2 =>
        cases t2 with
        | nil => exact absurd (by simp [hs] : (pySplitOn '/' tap).length = 2) hlen
        | cons z t3 => simp [infer_tap_url, hs]
  have hct : ∀ installed net, check_tap tap installed net = none := by
    intro installed net
    simp [check_tap, hurl]
  refine ⟨hurl, hct, ?_⟩
  intro m net pre post
  induction pre with
  | nil =>
    cases hrest : run_checks post m net <;>
      simp [run_checks, hct (mergedGet m tap) net, hrest]
  | cons q pre2 ih =>
    cases hq : check_tap q (mergedGet m q) net <;>
      simp [run_checks, hq, ih]

/-- Witness for C3 at the slash-free tap name `badtap`. -/
theorem infer_tap_url_bad_name_fatal_witness :
    infer_tap_url (str "badtap") = none ∧
    (∀ installed net, check_tap (str "badtap") installed net = none) ∧
    (∀ m net pre post,
      run_checks (pre ++ str "badtap" :: post) m net = none) :=
  infer_tap_url_bad_name_fatal (str "badtap") (by decide)

/-- C4: for every nonempty input list, when the bulk metadata query fails
(non-zero exit or unparsable output), `group_items_by_tap` attributes every
queried item, in order, to `homebrew/core`: nothing is dropped and the
function still returns normally. -/
theorem group_query_failure_fallback (items : List PyStr) (h : items ≠ []) :
    group_items_by_tap items none = [(str "homebrew/core", items)] :=
  group_none_eq items h

/-- Witness for C4 at the two-item input `wget`, `jq`. -/
theorem group_query_failure_fallback_witness :
    group_items_by_tap [str "wget", str "jq"] none =
      [(str "homebrew/core", [str "wget", str "jq"])] :=
  group_query_failure_fallback [str "wget", str "jq"] (by decide)

/-- C5: on the empty input list `group_items_by_tap` returns the empty
mapping whatever the metadata oracle would answer — the result does not
depend on the query, which the code never issues in this case. -/
theorem group_empty_input (query : Option InfoData) :
    group_items_by_tap [] query = [] := rfl

/-- C6: `merge_formulae_and_casks` returns a mapping whose key list is
duplicate-free, whose key set is exactly the union of the two inputs' key
sets, and where each tap's record carries exactly that tap's formula list
and cask list (empty where the tap is absent from one input). -/
theorem merge_union_preserves_lists (formula_map cask_map : TapMap) :
    ((merge_formulae_and_casks formula_map cask_map).map Prod.fst).Nodup ∧
    (∀ tap,
      tap ∈ (merge_formulae_and_casks formula_map cask_map).map Prod.fst ↔
        (tap ∈ formula_map.map Prod.fst ∨ tap ∈ cask_map.map Prod.fst)) ∧
    (∀ p ∈ merge_formulae_and_casks formula_map cask_map,
      p.2.formulae = tapGet formula_map p.1 ∧
      p.2.casks = tapGet cask_map p.1) := by
  have hkeys : (merge_formulae_and_casks formula_map cask_map).map Prod.fst =
      (formula_map.map Prod.fst ++ cask_map.map Prod.fst).dedup := by
    simp [merge_formulae_and_casks, List.map_map, Function.comp_def]
  refine ⟨?_, ?_, ?_⟩
  · rw [hkeys]
    exact List.nodup_dedup _
  · intro tap
    rw [hkeys]
    simp [List.mem_dedup]
  · intro p hp
    simp only [merge_formulae_and_casks, List.mem_map] at hp
    obtain ⟨tap, htap, hpe⟩ := hp
    subst hpe
    exact ⟨rfl, rfl⟩

/-- C7 (amended): `check_url_reachable` answers `True` exactly when the
HEAD request completes with status 200; a completed response with any other
status yields `False` (unreachable, but carrying no diagnostic string); a
raised network or protocol error yields the diagnostic string `Error: `
followed by the first line of the error message (`Unknown error` when the
message is empty). -/
theorem check_url_reachable_outcomes (url : PyStr) (net : NetResult) :
    (check_url_reachable url net = PyVal.pyBool true ↔
      net = NetResult.completed 200) ∧
    (∀ s, s ≠ 200 →
      check_url_reachable url (NetResult.completed s) = PyVal.pyBool false) ∧
    (∀ e, check_url_reachable url (NetResult.failed e) =
      PyVal.pyStr (str "Error: " ++
        (if e.isEmpty then str "Unknown error" else first_line e))) := by
  refine ⟨?_, ?_, ?_⟩
  · cases net with
    | completed status => simp [check_url_reachable]
    | failed e => simp [check_url_reachable]
  · intro s hs
    simp [check_url_reachable, hs]
  · intro e
    rfl

/-- Counterexample to C7 as stated: a HEAD request that completes with the
non-200 status 204 yields the bool `False`, not an outcome carrying a
diagnostic string. -/
theorem check_url_non200_no_diagnostic :
    check_url_reachable (str "https://github.com/homebrew/homebrew-core")
      (NetResult.completed 204) = PyVal.pyBool false ∧
    ¬ ∃ s, check_url_reachable (str "https://github.com/homebrew/homebrew-core")
      (NetResult.completed 204) = PyVal.pyStr s := by
  refine ⟨rfl, ?_⟩
  rintro ⟨s, hs⟩
  exact PyVal.noConfusion hs

/-- C8: with the tap set homebrew/core, homebrew/cask, alice/tools and a
probe that succeeds only for the two default taps' URLs, the run prints
exactly one ERROR status line — the one for alice/tools — and exactly two
OK status lines, and each status line is immediately followed by that tap's
indented item lines (its listing, or the no-items note; these are never
empty and all start with the indent marker), whatever items are
installed. -/
theorem run_demo_one_error_two_ok (m : List (PyStr × TapRecord)) :
    ∃ L : List PyStr,
      run_checks (compute_taps [str "alice/tools"]) m demo_net = some L ∧
      L = str "[ERROR] Cannot reach alice/tools (https://github.com/alice/homebrew-tools): Error: HTTP Error 404: Not Found" ::
          (item_lines (str "alice/tools") (mergedGet m (str "alice/tools")) ++
            str "[OK] homebrew/cask (https://github.com/homebrew/homebrew-cask) is reachable" ::
              (item_lines (str "homebrew/cask") (mergedGet m (str "homebrew/cask")) ++
                str "[OK] homebrew/core (https://github.com/homebrew/homebrew-core) is reachable" ::
                  item_lines (str "homebrew/core") (mergedGet m (str "homebrew/core")))) ∧
      L.countP (fun l => (str "[ERROR]").isPrefixOf l) = 1 ∧
      L.countP (fun l => (str "[OK]").isPrefixOf l) = 2 ∧
      (∀ tap r, item_lines tap r ≠ [] ∧
        ∀ l ∈ item_lines tap r, (str " ↳ ").isPrefixOf l = true) := by
  have htaps : compute_taps [str "alice/tools"] =
      [str "alice/tools", str "homebrew/cask", str "homebrew/core"] := by decide
  have hc1 : check_tap (str "alice/tools")
      (mergedGet m (str "alice/tools")) demo_net =
      some (str "[ERROR] Cannot reach alice/tools (https://github.com/alice/homebrew-tools): Error: HTTP Error 404: Not Found" ::
        item_lines (str "alice/tools") (mergedGet m (str "alice/tools"))) := rfl
  have hc2 : check_tap (str "homebrew/cask")
      (mergedGet m (str "homebrew/cask")) demo_net =
      some (str "[OK] homebrew/cask (https://github.com/homebrew/homebrew-cask) is reachable" ::
        item_lines (str "homebrew/cask") (mergedGet m (str "homebrew/cask"))) := rfl
  have hc3 : check_tap (str "homebrew/core")
      (mergedGet m (str "homebrew/core")) demo_net =
      some (str "[OK] homebrew/core (https://github.com/homebrew/homebrew-core) is reachable" ::
        item_lines (str "homebrew/core") (mergedGet m (str "homebrew/core"))) := rfl
  have h0 : run_checks [] m demo_net = some [] := rfl
  have r3 := run_checks_cons _ _ m demo_net _ _ hc3 h0
  rw [List.append_nil] at r3
  have r2 := run_checks_cons _ _ m demo_net _ _ hc2 r3
  have r1 := run_checks_cons _ _ m demo_net _ _ hc1 r2
  have herrA : (str "[ERROR]").isPrefixOf
      (str "[ERROR] Cannot reach alice/tools (https://github.com/alice/homebrew-tools): Error: HTTP Error 404: Not Found") = true := by
    decide
  have herrB : (str "[ERROR]").isPrefixOf
      (str "[OK] homebrew/cask (https://github.com/homebrew/homebrew-cask) is reachable") = false := by
    decide
  have herrC : (str "[ERROR]").isPrefixOf
      (str "[OK] homebrew/core (https://github.com/homebrew/homebrew-core) is reachable") = false := by
    decide
  have hokA : (str "[OK]").isPrefixOf
      (str "[ERROR] Cannot reach alice/tools (https://github.com/alice/homebrew-tools): Error: HTTP Error 404: Not Found") = false := by
    decide
  have hokB : (str "[OK]").isPrefixOf
      (str "[OK] homebrew/cask (https://github.com/homebrew/homebrew-cask) is reachable") = true := by
    decide
  have hokC : (str "[OK]").isPrefixOf
      (str "[OK] homebrew/core (https://github.com/homebrew/homebrew-core) is reachable") = true := by
    decide
  refine ⟨_, ?_, rfl, ?_, ?_,
    fun tap r => ⟨item_lines_ne_nil tap r, item_lines_indent tap r⟩⟩
  · rw [htaps]
    simpa using r1
  · simp [List.countP_cons, List.countP_append, countP_item_lines_err,
      herrA, herrB, herrC]
  · simp [List.countP_cons, List.countP_append, countP_item_lines_ok,
      hokA, hokB, hokC]

/-- C9: the tap list `main` iterates over always contains the two default
taps `homebrew/core` and `homebrew/cask` (whatever the tap enumerator
returned, including the empty list), has no duplicates, and is sorted
lexicographically. -/
theorem main_taps_defaults_nodup_sorted (custom_taps : List PyStr) :
    str "homebrew/core" ∈ compute_taps custom_taps ∧
    str "homebrew/cask" ∈ compute_taps custom_taps ∧
    (compute_taps custom_taps).Nodup ∧
    (compute_taps custom_taps).Sorted (fun a b => strLe a b = true) := by
  have hperm := List.perm_insertionSort (fun a b : PyStr => strLe a b = true)
    ((str "homebrew/core" :: str "homebrew/cask" :: custom_taps).dedup)
  refine ⟨?_, ?_, ?_, ?_⟩
  · exact hperm.mem_iff.2 (List.mem_dedup.2 (by simp))
  · exact hperm.mem_iff.2 (List.mem_dedup.2 (by simp))
  · exact hperm.nodup_iff.2 (List.nodup_dedup _)
  · exact List.sorted_insertionSort _ _

/-- C10 (amended): the grouping never invents item names — every name in
any tap's list comes from the input, and each name appears across all taps
at most as many times as it appears in the input (so at most once when the
input list is duplicate-free). -/
theorem group_no_invented_names (items : List PyStr) (query : Option InfoData)
    (x : PyStr) :
    totalCount (group_items_by_tap items query) x ≤ items.count x ∧
    (x ∉ items → totalCount (group_items_by_tap items query) x = 0) := by
  refine ⟨totalCount_group_le_count items query x, fun hx => ?_⟩
  have h0 : items.count x = 0 := List.count_eq_zero.2 hx
  have h1 := totalCount_group_le_count items query x
  omega

/-- Counterexample to C10 as stated: with the duplicated input `a`, `a` and
a failed query, the name `a` appears twice in total across the taps' lists,
not at most once. -/
theorem group_duplicate_input_attributed_twice :
    totalCount (group_items_by_tap [str "a", str "a"] none) (str "a") = 2 := rfl

end BrewTapAudit
